import Mathlib

/-!
Verification of the task-manager scheduling engine and task repository.

The model is a shallow embedding of src/server/storage.ts (class MemStorage).
Times are modelled as integers: milliseconds since the Unix epoch, in UTC,
exactly the time values held by JavaScript Date objects.  JavaScript numbers
are modelled as exact rationals; embedding a number into a Date truncates it
toward zero (ToIntegerOrInfinity), modelled by jsTrunc below.
-/

namespace TaskManager

/-- Milliseconds in one minute. -/
def msPerMinute : Int := 60000

/-- Milliseconds in one hour. -/
def msPerHour : Int := 3600000

/-- Milliseconds in one day. -/
def msPerDay : Int := 86400000

/-- Hour-of-day of a time value, 0..23: models Date.getHours (UTC reading). -/
def hoursOf (t : Int) : Int := (t / msPerHour) % 24

/-- Minute-of-hour of a time value, 0..59: models Date.getMinutes (UTC reading). -/
def minutesOf (t : Int) : Int := (t / msPerMinute) % 60

/-- Time-of-day of a time value in milliseconds, 0 <= todOf t < msPerDay. -/
def todOf (t : Int) : Int := t % msPerDay

/-- Calendar-day index of a time value (days since the epoch). -/
def dayOf (t : Int) : Int := t / msPerDay

/-- Midnight at the start of the calendar day containing t. -/
def midnightOf (t : Int) : Int := msPerDay * (t / msPerDay)

/-- Models d.setHours(h, m, 0, 0): replace the time-of-day of t by h:m:00.000. -/
def setTimeOfDay (t : Int) (h m : Int) : Int :=
  midnightOf t + h * msPerHour + m * msPerMinute

/-- Models storage.ts lines 180-185: round minutes up to the next quarter hour.
The code reads getMinutes, takes the remainder mod 15 and, when nonzero, calls
setMinutes with minutes + (15 - remainder), which adds (15 - remainder) minutes
and keeps seconds and milliseconds. -/
def roundUp15 (t : Int) : Int :=
  let r := minutesOf t % 15
  if 0 < r then t + (15 - r) * msPerMinute else t

/-- Truncation toward zero of a JS number to an integral Date time value
(ToIntegerOrInfinity inside TimeClip, applied by the Date constructor). -/
def jsTrunc (q : ℚ) : Int := if 0 ≤ q then ⌊q⌋ else ⌈q⌉

/-- Task priority, shared/schema.ts line 5. -/
inductive Priority
  | low
  | medium
  | high
deriving DecidableEq, Repr

/-- Numeric priority ranking used by the scheduler sort, storage.ts lines 107-111. -/
def priorityMap : Priority → Int
  | .high => 3
  | .medium => 2
  | .low => 1

/-- Task record, shared/schema.ts lines 7-18.  estimatedHours is stored as a
numeric and read through Number(...) by the engine, modelled as an exact
rational; completed is an integer column defaulting to 0; dueDate, createdAt
and the two scheduled fields are timestamps. -/
structure Task where
  id : Int
  title : String
  description : Option String
  estimatedHours : ℚ
  priority : Priority
  dueDate : Int
  completed : Int
  scheduledStart : Option Int
  scheduledEnd : Option Int
  createdAt : Int
deriving DecidableEq, Repr

/-- Sort comparator of storage.ts lines 105-119: due date ascending first,
then priority descending.  Returns a negative, zero or positive integer. -/
def taskCmp (a b : Task) : Int :=
  if a.dueDate - b.dueDate ≠ 0 then a.dueDate - b.dueDate
  else priorityMap b.priority - priorityMap a.priority

/-- Comparator viewed as a total preorder: a precedes (or ties) b. -/
def taskLE (a b : Task) : Prop := taskCmp a b ≤ 0

instance : DecidableRel taskLE :=
  fun a b => inferInstanceAs (Decidable (taskCmp a b ≤ 0))

/-- The stable sort performed by Array.prototype.sort with taskCmp
(stable since ES2019); a stable sort under a total preorder is unique, and
insertion sort realises it. -/
def sortTasks (l : List Task) : List Task := List.insertionSort taskLE l

/-- Initial candidate start, storage.ts lines 156-173: if the due date's hour
lies in 9..16 use the due date's hour:minute on the current day, else 9 AM. -/
def initialCandidate (now due : Int) : Int :=
  if 9 ≤ hoursOf due ∧ hoursOf due < 17 then
    setTimeOfDay now (hoursOf due) (minutesOf due)
  else
    setTimeOfDay now 9 0

/-- Past clamp, storage.ts lines 176-187: a candidate before now is replaced
by now rounded up to the next quarter hour. -/
def pastClamp (now t : Int) : Int := if t < now then roundUp15 now else t

/-- Working-hours clamp, storage.ts lines 189-203: when the hour is outside
9..16, move to the next day if at/after 17, then set the time to 9 AM. -/
def workHoursClamp (t : Int) : Int :=
  if hoursOf t < 9 ∨ 17 ≤ hoursOf t then
    if 17 ≤ hoursOf t then setTimeOfDay (t + msPerDay) 9 0
    else setTimeOfDay t 9 0
  else t

/-- Sequential non-overlap clamp, storage.ts lines 210-213: when the latest
scheduled end is after the epoch sentinel and the candidate is before it,
start at the latest scheduled end. -/
def overlapClamp (latestEnd t : Int) : Int :=
  if 0 < latestEnd ∧ t < latestEnd then latestEnd else t

/-- Fit-in-day adjustment, storage.ts lines 217-228: if the tentative end
(candidate plus duration, truncated by the Date constructor) is after 5 PM of
the candidate's day, move to 9 AM of the next day.  The check is done once;
the adjusted candidate is not re-checked. -/
def fitClamp (t : Int) (durMs : ℚ) : Int :=
  if setTimeOfDay t 17 0 < jsTrunc ((t : ℚ) + durMs) then
    setTimeOfDay (t + msPerDay) 9 0
  else t

/-- One iteration of the scheduling loop, storage.ts lines 138-263, producing
the committed start and end for one task given the current latest end. -/
def scheduleSlot (now latestEnd : Int) (task : Task) : Int × Int :=
  let durMs : ℚ := task.estimatedHours * 3600000
  let s := fitClamp
    (overlapClamp latestEnd (workHoursClamp (pastClamp now (initialCandidate now task.dueDate))))
    durMs
  (s, jsTrunc ((s : ℚ) + durMs))

/-- The scheduling loop over the sorted incomplete tasks, threading the latest
scheduled end (initially the epoch, 0): returns each task with its slot. -/
def commitTasks (now : Int) : List Task → Int → List (Task × Int × Int)
  | [], _ => []
  | t :: ts, latestEnd =>
    let p := scheduleSlot now latestEnd t
    (t, p.1, p.2) :: commitTasks now ts p.2

/-- Find the committed slot for a task id. -/
def findSlot (slots : List (Task × Int × Int)) (id : Int) : Option (Task × Int × Int) :=
  slots.find? (fun x => x.1.id == id)

/-- Write-back of storage.ts lines 257-263 viewed on the value set: an
incomplete task receives its committed slot, a completed task is untouched. -/
def applySlot (slots : List (Task × Int × Int)) (t : Task) : Task :=
  if t.completed == 0 then
    match findSlot slots t.id with
    | some x => { t with scheduledStart := some x.2.1, scheduledEnd := some x.2.2 }
    | none => t
  else t

/-- The scheduling engine, storage.ts lines 96-267, on the stored value set:
filter incomplete tasks, sort them, commit slots sequentially from the epoch
sentinel, and write the slots back.  The wall-clock reference is a parameter;
the source pins it to the demo constant refNow defined below. -/
def scheduleTasks (tasks : List Task) (now : Int) : List Task :=
  let slots := commitTasks now (sortTasks (tasks.filter (fun t => t.completed == 0))) 0
  tasks.map (applySlot slots)

/-- Demo reference time hardcoded at storage.ts lines 39 and 125:
2025-04-05T12:00:00.000Z. -/
def refNow : Int := 1743854400000

/-- Partial task update (TypeScript Partial of Task): each field optionally
present.  The description and scheduled fields are themselves nullable. -/
structure TaskPatch where
  id : Option Int := none
  title : Option String := none
  description : Option (Option String) := none
  estimatedHours : Option ℚ := none
  priority : Option Priority := none
  dueDate : Option Int := none
  completed : Option Int := none
  scheduledStart : Option (Option Int) := none
  scheduledEnd : Option (Option Int) := none
  createdAt : Option Int := none

/-- Spread merge of storage.ts line 77: fields present in the patch override
the stored record, all others are kept. -/
def applyPatch (t : Task) (p : TaskPatch) : Task where
  id := p.id.getD t.id
  title := p.title.getD t.title
  description := p.description.getD t.description
  estimatedHours := p.estimatedHours.getD t.estimatedHours
  priority := p.priority.getD t.priority
  dueDate := p.dueDate.getD t.dueDate
  completed := p.completed.getD t.completed
  scheduledStart := p.scheduledStart.getD t.scheduledStart
  scheduledEnd := p.scheduledEnd.getD t.scheduledEnd
  createdAt := p.createdAt.getD t.createdAt

/-- Reschedule trigger of storage.ts line 81, JS truthiness of
taskUpdate.estimatedHours, taskUpdate.priority and taskUpdate.dueDate:
a present estimatedHours of 0 is falsy, present priority strings and Date
objects are always truthy. -/
def patchTriggers (p : TaskPatch) : Bool :=
  (match p.estimatedHours with
    | some q => q != 0
    | none => false)
  || p.priority.isSome || p.dueDate.isSome

/-- In-memory storage state of MemStorage, storage.ts lines 15-26: the task
Map is an insertion-ordered association list from keys to task records. -/
structure MemStorage where
  tasks : List (Int × Task)
  currentTaskId : Int

/-- Map.get: the value stored under a key. -/
def mapGet (m : List (Int × Task)) (k : Int) : Option Task :=
  (m.find? (fun p => p.1 == k)).map (fun p => p.2)

/-- Map.set: replace the value under an existing key in place, else append. -/
def mapSet (m : List (Int × Task)) (k : Int) (v : Task) : List (Int × Task) :=
  if (m.find? (fun p => p.1 == k)).isSome then
    m.map (fun p => if p.1 == k then (k, v) else p)
  else m ++ [(k, v)]

/-- Storage invariant established by createTask (set(id, task) with
task.id = id): every entry's key equals its record's id field. -/
def storeInv (m : List (Int × Task)) : Bool :=
  m.all (fun p => p.1 == p.2.id)

/-- The scheduling pass acting on the storage map, storage.ts lines 96-267:
the loop reads a snapshot of the values and writes each updated incomplete
task back under its own id. -/
def scheduleStore (m : List (Int × Task)) (now : Int) : List (Int × Task) :=
  let snapshot := m.map (fun p => p.2)
  let slots := commitTasks now (sortTasks (snapshot.filter (fun t => t.completed == 0))) 0
  slots.foldl
    (fun acc x =>
      mapSet acc x.1.id { x.1 with scheduledStart := some x.2.1, scheduledEnd := some x.2.2 })
    m

/-- updateTask, storage.ts lines 68-86: absent id fails returning undefined and
leaves the store untouched; otherwise the patch is spread over the record, the
record is stored back under the argument id, and a reschedule pass runs when a
schedule-relevant field is (truthily) present in the patch.  The returned
record is the merged one, captured before the reschedule. -/
def updateTask (st : MemStorage) (id : Int) (p : TaskPatch) : Option Task × MemStorage :=
  match mapGet st.tasks id with
  | none => (none, st)
  | some task =>
    let updatedTask := applyPatch task p
    let m1 := mapSet st.tasks id updatedTask
    let m2 := if patchTriggers p then scheduleStore m1 refNow else m1
    (some updatedTask, { st with tasks := m2 })

/-- deleteTask, storage.ts lines 88-94: Map.delete removes the entry when the
key exists and reports whether it did; a reschedule pass runs only on success. -/
def deleteTask (st : MemStorage) (id : Int) : MemStorage × Bool :=
  if (st.tasks.find? (fun p => p.1 == id)).isSome then
    ({ st with tasks := scheduleStore (st.tasks.filter (fun p => p.1 != id)) refNow }, true)
  else (st, false)

/-! Concrete instances used by the scenario evaluations.  The reference day is
2025-04-05 (day index 20183 since the epoch); 09:00, 10:00, 11:00, 12:00 and
20:00 UTC of that day are 1743843600000, 1743847200000, 1743850800000,
1743854400000 and 1743883200000. -/

/-- A reference time of 08:00 UTC on 2025-04-05, as in spec scenarios 1-3. -/
def now8 : Int := 1743840000000

/-- A due date at 09:00 UTC on 2025-04-05. -/
def dueNine : Int := 1743843600000

/-- High-priority one-hour task due 2025-04-05T09:00Z. -/
def highTask : Task :=
  { id := 1, title := "high", description := none, estimatedHours := 1,
    priority := .high, dueDate := dueNine, completed := 0,
    scheduledStart := none, scheduledEnd := none, createdAt := now8 }

/-- Low-priority one-hour task due 2025-04-05T09:00Z. -/
def lowTask : Task :=
  { id := 2, title := "low", description := none, estimatedHours := 1,
    priority := .low, dueDate := dueNine, completed := 0,
    scheduledStart := none, scheduledEnd := none, createdAt := now8 }

/-- The high task with its committed 09:00-10:00 slot. -/
def highDone : Task :=
  { highTask with scheduledStart := some 1743843600000, scheduledEnd := some 1743847200000 }

/-- The low task with its committed 10:00-11:00 slot. -/
def lowDone : Task :=
  { lowTask with scheduledStart := some 1743847200000, scheduledEnd := some 1743850800000 }

/-- One-hour task due at time-of-day 10:00 (spec scenario 1). -/
def sc1Task : Task :=
  { id := 1, title := "sc1", description := none, estimatedHours := 1,
    priority := .medium, dueDate := 1743847200000, completed := 0,
    scheduledStart := none, scheduledEnd := none, createdAt := now8 }

/-- Scenario-1 task with its committed 10:00-11:00 slot. -/
def sc1Done : Task :=
  { sc1Task with scheduledStart := some 1743847200000, scheduledEnd := some 1743850800000 }

/-- One-hour task due at time-of-day 20:00 (spec scenario 2). -/
def sc2Task : Task :=
  { id := 1, title := "sc2", description := none, estimatedHours := 1,
    priority := .medium, dueDate := 1743883200000, completed := 0,
    scheduledStart := none, scheduledEnd := none, createdAt := now8 }

/-- Scenario-2 task with its committed 09:00-10:00 slot. -/
def sc2Done : Task :=
  { sc2Task with scheduledStart := some 1743843600000, scheduledEnd := some 1743847200000 }

/-- Nine-hour task, longer than the 8-hour working window, due at refNow. -/
def bigTask : Task :=
  { id := 1, title := "big", description := none, estimatedHours := 9,
    priority := .medium, dueDate := refNow, completed := 0,
    scheduledStart := none, scheduledEnd := none, createdAt := refNow }

/-- The nine-hour task as committed by the engine: 2025-04-06 09:00 to 18:00,
one single day forward, with the end one hour past the window close. -/
def bigDone : Task :=
  { bigTask with scheduledStart := some 1743930000000, scheduledEnd := some 1743962400000 }

/-- The rational 0.2500001, written with explicit coprime numerator and
denominator. -/
def oddEst : ℚ := Rat.mk' 2500001 10000000 (by norm_num) (by norm_num)

/-- Task whose estimate of 0.2500001 hours is not a whole number of
milliseconds (900000.36 ms). -/
def oddTask : Task :=
  { id := 1, title := "odd", description := none, estimatedHours := oddEst,
    priority := .medium, dueDate := refNow, completed := 0,
    scheduledStart := none, scheduledEnd := none, createdAt := refNow }

/-- The fractional-millisecond task as committed: the duration is truncated to
900000 ms. -/
def oddDone : Task :=
  { oddTask with scheduledStart := some 1743854400000, scheduledEnd := some 1743855300000 }

/-- A pre-epoch reference time: 1969-12-22T12:00Z. -/
def negNow : Int := -820800000

/-- One-hour incomplete task due 1969-12-22T10:00Z, id 1. -/
def preTaskA : Task :=
  { id := 1, title := "a", description := none, estimatedHours := 1,
    priority := .medium, dueDate := -828000000, completed := 0,
    scheduledStart := none, scheduledEnd := none, createdAt := negNow }

/-- One-hour incomplete task due 1969-12-22T10:00Z, id 2. -/
def preTaskB : Task :=
  { id := 2, title := "b", description := none, estimatedHours := 1,
    priority := .medium, dueDate := -828000000, completed := 0,
    scheduledStart := none, scheduledEnd := none, createdAt := negNow }

/-- The slot both pre-epoch tasks receive: 12:00-13:00 on 1969-12-22. -/
def preDoneA : Task :=
  { preTaskA with scheduledStart := some (-820800000), scheduledEnd := some (-817200000) }

/-- The identical slot for the second pre-epoch task. -/
def preDoneB : Task :=
  { preTaskB with scheduledStart := some (-820800000), scheduledEnd := some (-817200000) }

/-- A completed task carrying a stale slot. -/
def doneTask : Task :=
  { id := 7, title := "done", description := some "d", estimatedHours := 2,
    priority := .high, dueDate := dueNine, completed := 1,
    scheduledStart := some 123, scheduledEnd := some 456, createdAt := now8 }

/-- A plain stored task used by the repository tests. -/
def baseTask : Task :=
  { id := 1, title := "base", description := none, estimatedHours := 1,
    priority := .medium, dueDate := refNow, completed := 0,
    scheduledStart := none, scheduledEnd := none, createdAt := refNow }

/-- Empty storage. -/
def emptyStore : MemStorage := { tasks := [], currentTaskId := 1 }

/-- Storage holding baseTask under its own id. -/
def oneStore : MemStorage := { tasks := [(1, baseTask)], currentTaskId := 2 }

/-- A patch that only changes the id field. -/
def idPatch : TaskPatch := { id := some 2 }

/-- A patch that only renames the task. -/
def titlePatch : TaskPatch := { title := some "renamed" }

/-! Arithmetic facts about the time helpers. -/

lemma oddEst_eq : oddEst = 2500001 / 10000000 := by
  rw [oddEst, Rat.mk'_eq_divInt, Rat.divInt_eq_div]
  norm_num

lemma todOf_nonneg (t : Int) : 0 ≤ todOf t := by
  simp only [todOf, msPerDay]; omega

lemma todOf_lt_day (t : Int) : todOf t < msPerDay := by
  simp only [todOf, msPerDay]; omega

lemma midnightOf_add_todOf (t : Int) : midnightOf t + todOf t = t := by
  simp only [todOf, midnightOf, msPerDay]; omega

lemma nine_le_hoursOf_iff (t : Int) : 9 ≤ hoursOf t ↔ 9 * msPerHour ≤ todOf t := by
  simp only [hoursOf, todOf, msPerHour, msPerDay]; omega

lemma hoursOf_lt17_iff (t : Int) : hoursOf t < 17 ↔ todOf t < 17 * msPerHour := by
  simp only [hoursOf, todOf, msPerHour, msPerDay]; omega

lemma minutesOf_bounds (t : Int) : 0 ≤ minutesOf t ∧ minutesOf t < 60 := by
  simp only [minutesOf, msPerMinute]; omega

lemma todOf_setTimeOfDay (t : Int) (h m : Int)
    (hb1 : 0 ≤ h * msPerHour + m * msPerMinute)
    (hb2 : h * msPerHour + m * msPerMinute < msPerDay) :
    todOf (setTimeOfDay t h m) = h * msPerHour + m * msPerMinute := by
  simp only [todOf, setTimeOfDay, midnightOf, msPerHour, msPerMinute, msPerDay] at *
  omega

lemma midnightOf_setTimeOfDay (t : Int) (h m : Int)
    (hb1 : 0 ≤ h * msPerHour + m * msPerMinute)
    (hb2 : h * msPerHour + m * msPerMinute < msPerDay) :
    midnightOf (setTimeOfDay t h m) = midnightOf t := by
  simp only [setTimeOfDay, midnightOf, msPerHour, msPerMinute, msPerDay] at *
  omega

lemma roundUp15_bounds (t : Int) : t ≤ roundUp15 t ∧ roundUp15 t ≤ t + 15 * msPerMinute := by
  simp only [roundUp15, minutesOf, msPerMinute]
  split <;> omega

/-! Facts about jsTrunc. -/

lemma jsTrunc_intCast (n : Int) : jsTrunc (n : ℚ) = n := by
  simp only [jsTrunc]
  split
  · exact Int.floor_intCast n
  · exact Int.ceil_intCast n

lemma jsTrunc_eq_of_cast (q : ℚ) (n : Int) (h : q = (n : ℚ)) : jsTrunc q = n := by
  rw [h, jsTrunc_intCast]

lemma jsTrunc_add_int_lower (n : Int) (q : ℚ) : n + ⌊q⌋ ≤ jsTrunc ((n : ℚ) + q) := by
  simp only [jsTrunc]
  split
  · rw [add_comm ((n : ℚ)) q, Int.floor_add_int]; omega
  · rw [add_comm ((n : ℚ)) q, Int.ceil_add_int]
    have := Int.floor_le_ceil q
    omega

lemma jsTrunc_add_int_upper (n : Int) (q : ℚ) : jsTrunc ((n : ℚ) + q) ≤ n + ⌈q⌉ := by
  simp only [jsTrunc]
  split
  · rw [add_comm ((n : ℚ)) q, Int.floor_add_int]
    have := Int.floor_le_ceil q
    omega
  · rw [add_comm ((n : ℚ)) q, Int.ceil_add_int]; omega

lemma le_jsTrunc_add (n : Int) (q : ℚ) (h : 0 ≤ q) : n ≤ jsTrunc ((n : ℚ) + q) := by
  have h1 := jsTrunc_add_int_lower n q
  have h2 : (0 : Int) ≤ ⌊q⌋ := by
    rw [Int.le_floor]; exact_mod_cast h
  omega

lemma jsTrunc_add_ge (n c : Int) (q : ℚ) (h : (c : ℚ) ≤ q) : n + c ≤ jsTrunc ((n : ℚ) + q) := by
  have h1 := jsTrunc_add_int_lower n q
  have h2 : c ≤ ⌊q⌋ := Int.le_floor.mpr h
  omega

lemma jsTrunc_add_le (n c : Int) (q : ℚ) (h : q ≤ (c : ℚ)) : jsTrunc ((n : ℚ) + q) ≤ n + c := by
  have h1 := jsTrunc_add_int_upper n q
  have h2 : ⌈q⌉ ≤ c := Int.ceil_le.mpr h
  omega

/-! Facts about the individual clamping stages of the engine. -/

lemma pastClamp_ge_now (now t : Int) : now ≤ pastClamp now t := by
  simp only [pastClamp]
  split
  · exact (roundUp15_bounds now).1
  · omega

lemma workHoursClamp_ge (t : Int) : t ≤ workHoursClamp t := by
  simp only [workHoursClamp, setTimeOfDay, midnightOf, hoursOf, msPerHour, msPerMinute, msPerDay]
  split
  · split <;> omega
  · omega

lemma workHoursClamp_window (t : Int) :
    9 * msPerHour ≤ todOf (workHoursClamp t) ∧ todOf (workHoursClamp t) < 17 * msPerHour := by
  simp only [workHoursClamp, setTimeOfDay, midnightOf, hoursOf, todOf,
    msPerHour, msPerMinute, msPerDay]
  split
  · split <;> omega
  · omega

lemma overlapClamp_ge (latestEnd t : Int) : t ≤ overlapClamp latestEnd t := by
  simp only [overlapClamp]
  split <;> omega

lemma overlapClamp_ge_latest (latestEnd t : Int) (h : 0 < latestEnd) :
    latestEnd ≤ overlapClamp latestEnd t := by
  simp only [overlapClamp]
  split <;> omega

lemma fitClamp_ge (t : Int) (d : ℚ) : t ≤ fitClamp t d := by
  simp only [fitClamp]
  split
  · simp only [setTimeOfDay, midnightOf, msPerHour, msPerMinute, msPerDay]
    omega
  · omega

/-- Window behaviour of the fit-in-day stage: from a candidate whose
time-of-day lies in the closed working window and a duration between 15
minutes and 8 hours, the committed start lies in [9:00, 17:00), the committed
end lies in (9:00, 17:00] of the same calendar day, and the slot is
nonempty. -/
lemma fitClamp_props (t : Int) (d : ℚ)
    (h9 : 9 * msPerHour ≤ todOf t) (h17 : todOf t ≤ 17 * msPerHour)
    (hd1 : (900000 : ℚ) ≤ d) (hd2 : d ≤ 28800000) :
    9 * msPerHour ≤ todOf (fitClamp t d) ∧
    todOf (fitClamp t d) < 17 * msPerHour ∧
    9 * msPerHour ≤ todOf (jsTrunc ((fitClamp t d : ℚ) + d)) ∧
    todOf (jsTrunc ((fitClamp t d : ℚ) + d)) ≤ 17 * msPerHour ∧
    dayOf (fitClamp t d) = dayOf (jsTrunc ((fitClamp t d : ℚ) + d)) ∧
    fitClamp t d < jsTrunc ((fitClamp t d : ℚ) + d) := by
  have hdl : (900000 : Int) ≤ ⌊d⌋ := Int.le_floor.mpr (by exact_mod_cast hd1)
  have hdu : ⌈d⌉ ≤ (28800000 : Int) := Int.ceil_le.mpr (by exact_mod_cast hd2)
  simp only [fitClamp]
  split
  · -- moved to 9 AM next day
    have hl := jsTrunc_add_int_lower (setTimeOfDay (t + msPerDay) 9 0) d
    have hu := jsTrunc_add_int_upper (setTimeOfDay (t + msPerDay) 9 0) d
    revert hl hu
    simp only [todOf, dayOf, setTimeOfDay, midnightOf, msPerDay, msPerHour, msPerMinute] at *
    omega
  · -- committed on the same day
    rename_i hfit
    rw [not_lt] at hfit
    have hl := jsTrunc_add_int_lower t d
    have hu := jsTrunc_add_int_upper t d
    revert hl hu hfit
    simp only [todOf, dayOf, setTimeOfDay, midnightOf, msPerDay, msPerHour, msPerMinute] at *
    omega

/-- The committed start never precedes the wall-clock reference time. -/
lemma scheduleSlot_start_ge_now (now latestEnd : Int) (task : Task) :
    now ≤ (scheduleSlot now latestEnd task).1 := by
  simp only [scheduleSlot]
  calc now ≤ pastClamp now (initialCandidate now task.dueDate) := pastClamp_ge_now _ _
    _ ≤ workHoursClamp (pastClamp now (initialCandidate now task.dueDate)) :=
        workHoursClamp_ge _
    _ ≤ overlapClamp latestEnd (workHoursClamp (pastClamp now (initialCandidate now task.dueDate))) :=
        overlapClamp_ge _ _
    _ ≤ _ := fitClamp_ge _ _

/-- The committed start never precedes a positive latest scheduled end. -/
lemma scheduleSlot_start_ge_latest (now latestEnd : Int) (task : Task) (h : 0 < latestEnd) :
    latestEnd ≤ (scheduleSlot now latestEnd task).1 := by
  simp only [scheduleSlot]
  calc latestEnd
      ≤ overlapClamp latestEnd (workHoursClamp (pastClamp now (initialCandidate now task.dueDate))) :=
        overlapClamp_ge_latest _ _ h
    _ ≤ _ := fitClamp_ge _ _

/-- The committed end never precedes the committed start when the estimated
duration is nonnegative. -/
lemma scheduleSlot_end_ge_start (now latestEnd : Int) (task : Task)
    (h : 0 ≤ task.estimatedHours) :
    (scheduleSlot now latestEnd task).1 ≤ (scheduleSlot now latestEnd task).2 := by
  simp only [scheduleSlot]
  exact le_jsTrunc_add _ _ (by positivity)

/-- With a nonnegative reference time and an epoch-or-later latest end, the
committed start is strictly positive, keeping the epoch sentinel of
storage.ts line 210 effective for subsequent tasks. -/
lemma scheduleSlot_start_pos (now latestEnd : Int) (task : Task)
    (hnow : 0 ≤ now) (hle : latestEnd = 0 ∨ 0 < latestEnd) :
    0 < (scheduleSlot now latestEnd task).1 := by
  rcases hle with hle | hle
  · subst hle
    have h0 : overlapClamp 0 (workHoursClamp (pastClamp now (initialCandidate now task.dueDate)))
        = workHoursClamp (pastClamp now (initialCandidate now task.dueDate)) := by
      simp [overlapClamp]
    have hwin := workHoursClamp_window (pastClamp now (initialCandidate now task.dueDate))
    have hgen := pastClamp_ge_now now (initialCandidate now task.dueDate)
    have hge := workHoursClamp_ge (pastClamp now (initialCandidate now task.dueDate))
    simp only [scheduleSlot, h0]
    set u := workHoursClamp (pastClamp now (initialCandidate now task.dueDate)) with hu
    have : 0 < u := by
      have h1 := hwin.1
      simp only [todOf, msPerHour, msPerDay] at h1
      omega
    calc (0 : Int) < u := this
      _ ≤ fitClamp u (task.estimatedHours * 3600000) := fitClamp_ge _ _
  · calc (0 : Int) < latestEnd := hle
      _ ≤ _ := scheduleSlot_start_ge_latest now latestEnd task hle

/-- Window invariant carried through one slot computation: if the incoming
latest end (when positive) has its time-of-day inside the closed working
window and the task's estimate is between a quarter hour and eight hours,
then the committed slot satisfies the working-hours containment and the
committed end keeps the invariant. -/
lemma scheduleSlot_window (now latestEnd : Int) (task : Task)
    (hle : 0 < latestEnd → 9 * msPerHour ≤ todOf latestEnd ∧ todOf latestEnd ≤ 17 * msPerHour)
    (hq : (1 : ℚ)/4 ≤ task.estimatedHours) (hq8 : task.estimatedHours ≤ 8) :
    9 * msPerHour ≤ todOf (scheduleSlot now latestEnd task).1 ∧
    todOf (scheduleSlot now latestEnd task).1 < 17 * msPerHour ∧
    9 * msPerHour ≤ todOf (scheduleSlot now latestEnd task).2 ∧
    todOf (scheduleSlot now latestEnd task).2 ≤ 17 * msPerHour ∧
    dayOf (scheduleSlot now latestEnd task).1 = dayOf (scheduleSlot now latestEnd task).2 ∧
    (scheduleSlot now latestEnd task).1 < (scheduleSlot now latestEnd task).2 := by
  have hwin := workHoursClamp_window (pastClamp now (initialCandidate now task.dueDate))
  set u := workHoursClamp (pastClamp now (initialCandidate now task.dueDate)) with hu
  have hv : 9 * msPerHour ≤ todOf (overlapClamp latestEnd u) ∧
      todOf (overlapClamp latestEnd u) ≤ 17 * msPerHour := by
    simp only [overlapClamp]
    split
    · rename_i hcond
      exact hle hcond.1
    · exact ⟨hwin.1, le_of_lt hwin.2⟩
  have hd1 : (900000 : ℚ) ≤ task.estimatedHours * 3600000 := by
    nlinarith
  have hd2 : task.estimatedHours * 3600000 ≤ 28800000 := by
    nlinarith
  have := fitClamp_props (overlapClamp latestEnd u) (task.estimatedHours * 3600000)
    hv.1 hv.2 hd1 hd2
  simpa only [scheduleSlot, hu] using this

/-! Facts about the commit loop. -/

/-- The loop visits exactly the tasks of its input list, in order. -/
lemma commitTasks_map_fst (now : Int) :
    ∀ (l : List Task) (latestEnd : Int),
      (commitTasks now l latestEnd).map (fun x => x.1) = l := by
  intro l
  induction l with
  | nil => intro le; rfl
  | cons t ts ih =>
    intro le
    simp only [commitTasks, List.map_cons, List.cons.injEq, true_and]
    exact ih _

/-- Every visited task contributes a slot triple. -/
lemma mem_commitTasks_of_mem (now : Int) :
    ∀ (l : List Task) (latestEnd : Int) (t : Task), t ∈ l →
      ∃ s e, (t, s, e) ∈ commitTasks now l latestEnd := by
  intro l
  induction l with
  | nil => intro le t ht; cases ht
  | cons a ts ih =>
    intro le t ht
    rcases List.mem_cons.mp ht with h | h
    · subst h
      exact ⟨_, _, List.mem_cons_self _ _⟩
    · obtain ⟨s, e, hm⟩ := ih _ t h
      exact ⟨s, e, List.mem_cons_of_mem _ hm⟩

/-- Every committed start is at or after the reference time. -/
lemma commitTasks_start_ge_now (now : Int) :
    ∀ (l : List Task) (latestEnd : Int) (x : Task × Int × Int),
      x ∈ commitTasks now l latestEnd → now ≤ x.2.1 := by
  intro l
  induction l with
  | nil => intro le x hx; cases hx
  | cons t ts ih =>
    intro le x hx
    rcases List.mem_cons.mp hx with h | h
    · subst h
      exact scheduleSlot_start_ge_now now le t
    · exact ih _ x h

/-- Main sequential invariant of the loop under a nonnegative reference time
and nonnegative estimates: every committed slot starts at or after the
incoming latest end (when positive), starts strictly after the epoch, does not
end before it starts, and the committed slots are pairwise ordered: each slot
ends no later than any later slot starts. -/
lemma commitTasks_ordered (now : Int) (hnow : 0 ≤ now) :
    ∀ (l : List Task) (latestEnd : Int),
      (∀ t ∈ l, 0 ≤ t.estimatedHours) → (latestEnd = 0 ∨ 0 < latestEnd) →
      (∀ x ∈ commitTasks now l latestEnd,
        (0 < latestEnd → latestEnd ≤ x.2.1) ∧ x.2.1 ≤ x.2.2 ∧ 0 < x.2.1) ∧
      List.Pairwise (fun a b : Task × Int × Int => a.2.2 ≤ b.2.1)
        (commitTasks now l latestEnd) := by
  intro l
  induction l with
  | nil =>
    intro le hest hle
    exact ⟨fun x hx => absurd hx (List.not_mem_nil x), List.Pairwise.nil⟩
  | cons t ts ih =>
    intro le hest hle
    have hs_pos : 0 < (scheduleSlot now le t).1 := scheduleSlot_start_pos now le t hnow hle
    have hse : (scheduleSlot now le t).1 ≤ (scheduleSlot now le t).2 :=
      scheduleSlot_end_ge_start now le t (hest t (List.mem_cons_self _ _))
    have he_pos : 0 < (scheduleSlot now le t).2 := lt_of_lt_of_le hs_pos hse
    have hrest := ih (scheduleSlot now le t).2
      (fun u hu => hest u (List.mem_cons_of_mem _ hu)) (Or.inr he_pos)
    refine ⟨?_, ?_⟩
    · intro x hx
      rcases List.mem_cons.mp hx with h | h
      · subst h
        exact ⟨fun hlt => scheduleSlot_start_ge_latest now le t hlt, hse, hs_pos⟩
      · have hx' := (hrest.1 x h)
        refine ⟨fun hlt => ?_, hx'.2.1, hx'.2.2⟩
        calc le ≤ (scheduleSlot now le t).1 := scheduleSlot_start_ge_latest now le t hlt
          _ ≤ (scheduleSlot now le t).2 := hse
          _ ≤ x.2.1 := hx'.1 he_pos
    · refine List.Pairwise.cons ?_ hrest.2
      intro x hx
      exact (hrest.1 x hx).1 he_pos

/-- Window invariant over the whole loop: with every estimate between a
quarter hour and eight hours, every committed slot satisfies the
working-hours containment. -/
lemma commitTasks_window (now : Int) :
    ∀ (l : List Task) (latestEnd : Int),
      (∀ t ∈ l, (1 : ℚ)/4 ≤ t.estimatedHours ∧ t.estimatedHours ≤ 8) →
      (0 < latestEnd → 9 * msPerHour ≤ todOf latestEnd ∧ todOf latestEnd ≤ 17 * msPerHour) →
      ∀ x ∈ commitTasks now l latestEnd,
        9 * msPerHour ≤ todOf x.2.1 ∧ todOf x.2.1 < 17 * msPerHour ∧
        9 * msPerHour ≤ todOf x.2.2 ∧ todOf x.2.2 ≤ 17 * msPerHour ∧
        dayOf x.2.1 = dayOf x.2.2 := by
  intro l
  induction l with
  | nil => intro le hest hinv x hx; cases hx
  | cons t ts ih =>
    intro le hest hinv x hx
    have hw := scheduleSlot_window now le t hinv
      (hest t (List.mem_cons_self _ _)).1 (hest t (List.mem_cons_self _ _)).2
    rcases List.mem_cons.mp hx with h | h
    · subst h
      exact ⟨hw.1, hw.2.1, hw.2.2.1, hw.2.2.2.1, hw.2.2.2.2.1⟩
    · exact ih _ (fun u hu => hest u (List.mem_cons_of_mem _ hu))
        (fun _ => ⟨hw.2.2.1, hw.2.2.2.1⟩) x h

/-! Facts about the sort. -/

/-- The comparator order is the lexicographic order: due date ascending,
then priority descending. -/
lemma taskLE_iff (a b : Task) :
    taskLE a b ↔
      (a.dueDate < b.dueDate ∨
        (a.dueDate = b.dueDate ∧ priorityMap b.priority ≤ priorityMap a.priority)) := by
  simp only [taskLE, taskCmp]
  split <;> omega

lemma taskLE_total (a b : Task) : taskLE a b ∨ taskLE b a := by
  rw [taskLE_iff, taskLE_iff]
  omega

lemma taskLE_trans_fact (a b c : Task) (h1 : taskLE a b) (h2 : taskLE b c) : taskLE a c := by
  rw [taskLE_iff] at *
  omega

/-- Sorting returns a permutation of the input. -/
lemma sortTasks_perm (l : List Task) : (sortTasks l).Perm l :=
  List.perm_insertionSort taskLE l

lemma mem_sortTasks (l : List Task) (t : Task) : t ∈ sortTasks l ↔ t ∈ l :=
  (sortTasks_perm l).mem_iff

/-- The sort output is sorted under the comparator order. -/
lemma sortTasks_sorted (l : List Task) : List.Sorted taskLE (sortTasks l) := by
  haveI : IsTotal Task taskLE := ⟨taskLE_total⟩
  haveI : IsTrans Task taskLE := ⟨taskLE_trans_fact⟩
  exact List.sorted_insertionSort taskLE l

/-! Facts about the write-back. -/

/-- An incomplete task of the input always finds a committed slot. -/
lemma findSlot_isSome (now : Int) (l : List Task) (latestEnd : Int) (t : Task) (ht : t ∈ l) :
    (findSlot (commitTasks now l latestEnd) t.id).isSome := by
  obtain ⟨s, e, hm⟩ := mem_commitTasks_of_mem now l latestEnd t ht
  cases hfind : findSlot (commitTasks now l latestEnd) t.id with
  | some x => rfl
  | none =>
    exfalso
    have := List.find?_eq_none.mp hfind (t, s, e) hm
    simp at this

/-- Case analysis of the write-back for one task. -/
lemma applySlot_cases (slots : List (Task × Int × Int)) (t : Task) :
    applySlot slots t = t ∨
      ∃ x, x ∈ slots ∧ x.1.id = t.id ∧ t.completed = 0 ∧
        applySlot slots t = { t with scheduledStart := some x.2.1, scheduledEnd := some x.2.2 } := by
  simp only [applySlot]
  split
  · rename_i hc
    cases hfind : findSlot slots t.id with
    | some x =>
      right
      refine ⟨x, List.mem_of_find?_eq_some hfind, ?_, by simpa using hc, rfl⟩
      have := List.find?_some hfind
      simpa using this
    | none => left; rfl
  · left; rfl

/-- The write-back changes at most the two scheduled fields. -/
lemma applySlot_frame (slots : List (Task × Int × Int)) (t : Task) :
    (applySlot slots t).id = t.id ∧
    (applySlot slots t).title = t.title ∧
    (applySlot slots t).description = t.description ∧
    (applySlot slots t).estimatedHours = t.estimatedHours ∧
    (applySlot slots t).priority = t.priority ∧
    (applySlot slots t).dueDate = t.dueDate ∧
    (applySlot slots t).completed = t.completed ∧
    (applySlot slots t).createdAt = t.createdAt := by
  rcases applySlot_cases slots t with h | ⟨x, -, -, -, h⟩ <;> rw [h] <;> simp

/-- A completed task is returned unchanged by the write-back. -/
lemma applySlot_completed (slots : List (Task × Int × Int)) (t : Task)
    (h : t.completed ≠ 0) : applySlot slots t = t := by
  simp only [applySlot]
  split
  · rename_i hc
    simp at hc
    exact absurd hc h
  · rfl

/-- An incomplete task is returned carrying its committed slot. -/
lemma applySlot_of_find (slots : List (Task × Int × Int)) (t : Task) (x : Task × Int × Int)
    (hc : t.completed = 0) (hfind : findSlot slots t.id = some x) :
    applySlot slots t = { t with scheduledStart := some x.2.1, scheduledEnd := some x.2.2 } := by
  simp only [applySlot, hc, hfind]
  simp

/-- Structure of a scheduled incomplete task: it is the write-back of an input
task and carries the slot of some committed triple with its id. -/
lemma scheduleTasks_incomplete_structure (tasks : List Task) (now : Int) (a : Task)
    (ha : a ∈ scheduleTasks tasks now) (hc : a.completed = 0) :
    ∃ x ∈ commitTasks now (sortTasks (tasks.filter (fun t => t.completed == 0))) 0,
      x.1.id = a.id ∧ x.1 ∈ tasks ∧ x.1.completed = 0 ∧
      a.scheduledStart = some x.2.1 ∧ a.scheduledEnd = some x.2.2 := by
  simp only [scheduleTasks, List.mem_map] at ha
  obtain ⟨t, hmem, hwb⟩ := ha
  set slots := commitTasks now (sortTasks (tasks.filter (fun t => t.completed == 0))) 0
    with hslots
  have htc : t.completed = 0 := by
    have := (applySlot_frame slots t).2.2.2.2.2.2.1
    rw [hwb] at this
    omega
  have htf : t ∈ sortTasks (tasks.filter (fun u => u.completed == 0)) := by
    rw [mem_sortTasks, List.mem_filter]
    exact ⟨hmem, by simpa using htc⟩
  have hsome := findSlot_isSome now _ 0 t htf
  cases hfind : findSlot slots t.id with
  | none => rw [hslots] at hfind; rw [hfind] at hsome; cases hsome
  | some x =>
    have hax : a = { t with scheduledStart := some x.2.1, scheduledEnd := some x.2.2 } := by
      rw [← hwb, applySlot_of_find slots t x htc hfind]
    have hxid : x.1.id = t.id := by
      have := List.find?_some hfind
      simpa using this
    have hxmem : x ∈ slots := List.mem_of_find?_eq_some hfind
    have hxt : x.1 ∈ sortTasks (tasks.filter (fun u => u.completed == 0)) := by
      have hfst := commitTasks_map_fst now (sortTasks (tasks.filter (fun u => u.completed == 0))) 0
      have hm2 : x.1 ∈ slots.map (fun y => y.1) := List.mem_map_of_mem _ hxmem
      rw [hslots] at hm2
      rwa [hfst] at hm2
    have hx1 : x.1 ∈ tasks ∧ x.1.completed = 0 := by
      rw [mem_sortTasks, List.mem_filter] at hxt
      exact ⟨hxt.1, by simpa using hxt.2⟩
    refine ⟨x, hxmem, ?_, hx1.1, hx1.2, ?_, ?_⟩
    · rw [hxid, hax]
    · rw [hax]
    · rw [hax]

/-- Estimates hypothesis transferred to the sorted incomplete list. -/
lemma est_transfer (tasks : List Task) (P : ℚ → Prop)
    (hest : ∀ t ∈ tasks, t.completed = 0 → P t.estimatedHours) :
    ∀ t ∈ sortTasks (tasks.filter (fun u => u.completed == 0)), P t.estimatedHours := by
  intro t ht
  rw [mem_sortTasks, List.mem_filter] at ht
  exact hest t ht.1 (by simpa using ht.2)

/-- C1 (amended): after a reschedule pass with a reference time at or after
the epoch, over validated tasks (nonnegative estimates), the slots of any two
distinct incomplete tasks do not overlap: one ends no later than the other
starts. -/
theorem no_overlap_after_reschedule (tasks : List Task) (now : Int)
    (hnow : 0 ≤ now)
    (hest : ∀ t ∈ tasks, t.completed = 0 → 0 ≤ t.estimatedHours)
    (a b : Task) (ha : a ∈ scheduleTasks tasks now) (hb : b ∈ scheduleTasks tasks now)
    (hca : a.completed = 0) (hcb : b.completed = 0) (hab : a.id ≠ b.id)
    (s1 e1 s2 e2 : Int)
    (hs1 : a.scheduledStart = some s1) (he1 : a.scheduledEnd = some e1)
    (hs2 : b.scheduledStart = some s2) (he2 : b.scheduledEnd = some e2) :
    e1 ≤ s2 ∨ e2 ≤ s1 := by
  obtain ⟨x, hxm, hxid, -, -, hxs, hxe⟩ :=
    scheduleTasks_incomplete_structure tasks now a ha hca
  obtain ⟨y, hym, hyid, -, -, hys, hye⟩ :=
    scheduleTasks_incomplete_structure tasks now b hb hcb
  have hxy : x ≠ y := by
    intro h
    exact hab (by rw [← hxid, ← hyid, h])
  have hord := (commitTasks_ordered now hnow
    (sortTasks (tasks.filter (fun t => t.completed == 0))) 0
    (est_transfer tasks (fun q => 0 ≤ q) hest) (Or.inl rfl)).2
  have hpair : List.Pairwise
      (fun u v : Task × Int × Int => u.2.2 ≤ v.2.1 ∨ v.2.2 ≤ u.2.1)
      (commitTasks now (sortTasks (tasks.filter (fun t => t.completed == 0))) 0) :=
    hord.imp (fun h => Or.inl h)
  have hsym : Symmetric (fun u v : Task × Int × Int => u.2.2 ≤ v.2.1 ∨ v.2.2 ≤ u.2.1) := by
    intro u v h
    tauto
  have hres := hpair.forall hsym hxm hym hxy
  have hes1 : s1 = x.2.1 := by rw [hs1] at hxs; exact Option.some.inj hxs
  have hee1 : e1 = x.2.2 := by rw [he1] at hxe; exact Option.some.inj hxe
  have hes2 : s2 = y.2.1 := by rw [hs2] at hys; exact Option.some.inj hys
  have hee2 : e2 = y.2.2 := by rw [he2] at hye; exact Option.some.inj hye
  rw [hes1, hee1, hes2, hee2]
  exact hres

/-- C2 (amended): after a reschedule pass, when every incomplete task's
estimate lies between the validated minimum of 0.25 hours and the 8-hour
window span, every incomplete task carries a slot whose start's time-of-day is
in [09:00, 17:00), whose end's time-of-day is at most 17:00, and whose start
and end fall on the same calendar day. -/
theorem working_hours_containment (tasks : List Task) (now : Int)
    (hest : ∀ t ∈ tasks, t.completed = 0 →
      (1 : ℚ)/4 ≤ t.estimatedHours ∧ t.estimatedHours ≤ 8)
    (a : Task) (ha : a ∈ scheduleTasks tasks now) (hca : a.completed = 0) :
    a.scheduledStart.isSome ∧ a.scheduledEnd.isSome ∧
    ∀ s e, a.scheduledStart = some s → a.scheduledEnd = some e →
      9 * msPerHour ≤ todOf s ∧ todOf s < 17 * msPerHour ∧
      todOf e ≤ 17 * msPerHour ∧ dayOf s = dayOf e := by
  obtain ⟨x, hxm, -, -, -, hxs, hxe⟩ :=
    scheduleTasks_incomplete_structure tasks now a ha hca
  have hw := commitTasks_window now
    (sortTasks (tasks.filter (fun t => t.completed == 0))) 0
    (est_transfer tasks (fun q => (1 : ℚ)/4 ≤ q ∧ q ≤ 8) hest)
    (by intro h; exact absurd h (by omega)) x hxm
  refine ⟨by rw [hxs]; rfl, by rw [hxe]; rfl, ?_⟩
  intro s e hs he
  rw [hs] at hxs
  rw [he] at hxe
  rw [Option.some.inj hxs, Option.some.inj hxe]
  exact ⟨hw.1, hw.2.1, hw.2.2.2.1, hw.2.2.2.2⟩

/-- C4: after any reschedule pass, every incomplete task carries a scheduled
start, and that start is never before the reference time of the pass. -/
theorem no_past_scheduling (tasks : List Task) (now : Int) :
    ((scheduleTasks tasks now).all fun t =>
      (t.completed != 0) ||
        (match t.scheduledStart with
          | some s => decide (now ≤ s)
          | none => false)) = true := by
  rw [List.all_eq_true]
  intro a ha
  by_cases hc : a.completed = 0
  · obtain ⟨x, hxm, -, -, -, hxs, -⟩ :=
      scheduleTasks_incomplete_structure tasks now a ha hc
    have hge := commitTasks_start_ge_now now
      (sortTasks (tasks.filter (fun t => t.completed == 0))) 0 x hxm
    simp only [hxs, Bool.or_eq_true, decide_eq_true_eq]
    right
    exact hge
  · simp only [Bool.or_eq_true, bne_iff_ne]
    left
    exact hc

/-! Concrete slot evaluations. -/

lemma slot_high_eval : scheduleSlot now8 0 highTask = (1743843600000, 1743847200000) := by
  have hpre : overlapClamp 0
      (workHoursClamp (pastClamp now8 (initialCandidate now8 highTask.dueDate)))
      = 1743843600000 := by decide
  have hj : jsTrunc (((1743843600000 : Int) : ℚ) + highTask.estimatedHours * 3600000)
      = 1743847200000 :=
    jsTrunc_eq_of_cast _ _ (by norm_num [highTask])
  have hcond : ¬ (setTimeOfDay 1743843600000 17 0 < (1743847200000 : Int)) := by decide
  simp only [scheduleSlot, hpre, fitClamp, hj, if_neg hcond]

lemma slot_low_eval : scheduleSlot now8 1743847200000 lowTask = (1743847200000, 1743850800000) := by
  have hpre : overlapClamp 1743847200000
      (workHoursClamp (pastClamp now8 (initialCandidate now8 lowTask.dueDate)))
      = 1743847200000 := by decide
  have hj : jsTrunc (((1743847200000 : Int) : ℚ) + lowTask.estimatedHours * 3600000)
      = 1743850800000 :=
    jsTrunc_eq_of_cast _ _ (by norm_num [lowTask])
  have hcond : ¬ (setTimeOfDay 1743847200000 17 0 < (1743850800000 : Int)) := by decide
  simp only [scheduleSlot, hpre, fitClamp, hj, if_neg hcond]

lemma slot_sc1_eval : scheduleSlot now8 0 sc1Task = (1743847200000, 1743850800000) := by
  have hpre : overlapClamp 0
      (workHoursClamp (pastClamp now8 (initialCandidate now8 sc1Task.dueDate)))
      = 1743847200000 := by decide
  have hj : jsTrunc (((1743847200000 : Int) : ℚ) + sc1Task.estimatedHours * 3600000)
      = 1743850800000 :=
    jsTrunc_eq_of_cast _ _ (by norm_num [sc1Task])
  have hcond : ¬ (setTimeOfDay 1743847200000 17 0 < (1743850800000 : Int)) := by decide
  simp only [scheduleSlot, hpre, fitClamp, hj, if_neg hcond]

lemma slot_sc2_eval : scheduleSlot now8 0 sc2Task = (1743843600000, 1743847200000) := by
  have hpre : overlapClamp 0
      (workHoursClamp (pastClamp now8 (initialCandidate now8 sc2Task.dueDate)))
      = 1743843600000 := by decide
  have hj : jsTrunc (((1743843600000 : Int) : ℚ) + sc2Task.estimatedHours * 3600000)
      = 1743847200000 :=
    jsTrunc_eq_of_cast _ _ (by norm_num [sc2Task])
  have hcond : ¬ (setTimeOfDay 1743843600000 17 0 < (1743847200000 : Int)) := by decide
  simp only [scheduleSlot, hpre, fitClamp, hj, if_neg hcond]

lemma slot_big_eval : scheduleSlot refNow 0 bigTask = (1743930000000, 1743962400000) := by
  have hpre : overlapClamp 0
      (workHoursClamp (pastClamp refNow (initialCandidate refNow bigTask.dueDate)))
      = 1743854400000 := by decide
  have hj1 : jsTrunc (((1743854400000 : Int) : ℚ) + bigTask.estimatedHours * 3600000)
      = 1743886800000 :=
    jsTrunc_eq_of_cast _ _ (by norm_num [bigTask])
  have hcond : setTimeOfDay 1743854400000 17 0 < (1743886800000 : Int) := by decide
  have hday : setTimeOfDay (1743854400000 + msPerDay) 9 0 = (1743930000000 : Int) := by decide
  have hj2 : jsTrunc (((1743930000000 : Int) : ℚ) + bigTask.estimatedHours * 3600000)
      = 1743962400000 :=
    jsTrunc_eq_of_cast _ _ (by norm_num [bigTask])
  simp only [scheduleSlot, hpre, fitClamp, hj1, if_pos hcond, hday, hj2]

lemma slot_odd_eval : scheduleSlot refNow 0 oddTask = (1743854400000, 1743855300000) := by
  have hpre : overlapClamp 0
      (workHoursClamp (pastClamp refNow (initialCandidate refNow oddTask.dueDate)))
      = 1743854400000 := by decide
  have hj : jsTrunc (((1743854400000 : Int) : ℚ) + oddTask.estimatedHours * 3600000)
      = 1743855300000 := by
    rw [jsTrunc, if_pos (by norm_num [oddTask, oddEst_eq])]
    norm_num [oddTask, oddEst_eq]
  have hcond : ¬ (setTimeOfDay 1743854400000 17 0 < (1743855300000 : Int)) := by decide
  simp only [scheduleSlot, hpre, fitClamp, hj, if_neg hcond]

lemma slot_preA_eval : scheduleSlot negNow 0 preTaskA = (-820800000, -817200000) := by
  have hpre : overlapClamp 0
      (workHoursClamp (pastClamp negNow (initialCandidate negNow preTaskA.dueDate)))
      = -820800000 := by decide
  have hj : jsTrunc (((-820800000 : Int) : ℚ) + preTaskA.estimatedHours * 3600000)
      = -817200000 :=
    jsTrunc_eq_of_cast _ _ (by norm_num [preTaskA])
  have hcond : ¬ (setTimeOfDay (-820800000) 17 0 < (-817200000 : Int)) := by decide
  simp only [scheduleSlot, hpre, fitClamp, hj, if_neg hcond]

lemma slot_preB_eval : scheduleSlot negNow (-817200000) preTaskB = (-820800000, -817200000) := by
  have hpre : overlapClamp (-817200000)
      (workHoursClamp (pastClamp negNow (initialCandidate negNow preTaskB.dueDate)))
      = -820800000 := by decide
  have hj : jsTrunc (((-820800000 : Int) : ℚ) + preTaskB.estimatedHours * 3600000)
      = -817200000 :=
    jsTrunc_eq_of_cast _ _ (by norm_num [preTaskB])
  have hcond : ¬ (setTimeOfDay (-820800000) 17 0 < (-817200000 : Int)) := by decide
  simp only [scheduleSlot, hpre, fitClamp, hj, if_neg hcond]

/-! Concrete engine runs. -/

lemma sched_two_eval : scheduleTasks [lowTask, highTask] now8 = [lowDone, highDone] := by
  have hsort : sortTasks (List.filter (fun t => t.completed == 0) [lowTask, highTask])
      = [highTask, lowTask] := by decide
  have hcommit : commitTasks now8 [highTask, lowTask] 0
      = [(highTask, 1743843600000, 1743847200000), (lowTask, 1743847200000, 1743850800000)] := by
    simp only [commitTasks, slot_high_eval, slot_low_eval]
  have happl : List.map
      (applySlot [(highTask, 1743843600000, 1743847200000),
        (lowTask, 1743847200000, 1743850800000)]) [lowTask, highTask]
      = [lowDone, highDone] := by decide
  simp only [scheduleTasks, hsort, hcommit, happl]

lemma sched_sc1_eval : scheduleTasks [sc1Task] now8 = [sc1Done] := by
  have hsort : sortTasks (List.filter (fun t => t.completed == 0) [sc1Task])
      = [sc1Task] := by decide
  have hcommit : commitTasks now8 [sc1Task] 0
      = [(sc1Task, 1743847200000, 1743850800000)] := by
    simp only [commitTasks, slot_sc1_eval]
  have happl : List.map (applySlot [(sc1Task, 1743847200000, 1743850800000)]) [sc1Task]
      = [sc1Done] := by decide
  simp only [scheduleTasks, hsort, hcommit, happl]

lemma sched_sc2_eval : scheduleTasks [sc2Task] now8 = [sc2Done] := by
  have hsort : sortTasks (List.filter (fun t => t.completed == 0) [sc2Task])
      = [sc2Task] := by decide
  have hcommit : commitTasks now8 [sc2Task] 0
      = [(sc2Task, 1743843600000, 1743847200000)] := by
    simp only [commitTasks, slot_sc2_eval]
  have happl : List.map (applySlot [(sc2Task, 1743843600000, 1743847200000)]) [sc2Task]
      = [sc2Done] := by decide
  simp only [scheduleTasks, hsort, hcommit, happl]

lemma sched_big_eval : scheduleTasks [bigTask] refNow = [bigDone] := by
  have hsort : sortTasks (List.filter (fun t => t.completed == 0) [bigTask])
      = [bigTask] := by decide
  have hcommit : commitTasks refNow [bigTask] 0
      = [(bigTask, 1743930000000, 1743962400000)] := by
    simp only [commitTasks, slot_big_eval]
  have happl : List.map (applySlot [(bigTask, 1743930000000, 1743962400000)]) [bigTask]
      = [bigDone] := by decide
  simp only [scheduleTasks, hsort, hcommit, happl]

lemma sched_odd_eval : scheduleTasks [oddTask] refNow = [oddDone] := by
  have hsort : sortTasks (List.filter (fun t => t.completed == 0) [oddTask])
      = [oddTask] := by decide
  have hcommit : commitTasks refNow [oddTask] 0
      = [(oddTask, 1743854400000, 1743855300000)] := by
    simp only [commitTasks, slot_odd_eval]
  have happl : List.map (applySlot [(oddTask, 1743854400000, 1743855300000)]) [oddTask]
      = [oddDone] := by decide
  simp only [scheduleTasks, hsort, hcommit, happl]

lemma sched_pre_eval : scheduleTasks [preTaskA, preTaskB] negNow = [preDoneA, preDoneB] := by
  have hsort : sortTasks (List.filter (fun t => t.completed == 0) [preTaskA, preTaskB])
      = [preTaskA, preTaskB] := by decide
  have hcommit : commitTasks negNow [preTaskA, preTaskB] 0
      = [(preTaskA, -820800000, -817200000), (preTaskB, -820800000, -817200000)] := by
    simp only [commitTasks, slot_preA_eval, slot_preB_eval]
  have happl : List.map
      (applySlot [(preTaskA, -820800000, -817200000), (preTaskB, -820800000, -817200000)])
      [preTaskA, preTaskB] = [preDoneA, preDoneB] := by decide
  simp only [scheduleTasks, hsort, hcommit, happl]

lemma sched_done_eval : scheduleTasks [doneTask] now8 = [doneTask] := by decide

/-- Shape of every committed slot: the end is the start plus the duration,
truncated by the Date constructor. -/
lemma commitTasks_end_shape (now : Int) :
    ∀ (l : List Task) (latestEnd : Int) (x : Task × Int × Int),
      x ∈ commitTasks now l latestEnd →
      x.2.2 = jsTrunc ((x.2.1 : ℚ) + x.1.estimatedHours * 3600000) := by
  intro l
  induction l with
  | nil => intro le x hx; cases hx
  | cons t ts ih =>
    intro le x hx
    rcases List.mem_cons.mp hx with h | h
    · subst h
      rfl
    · exact ih _ x h

/-- Truncation of an exact integer sum is exact. -/
lemma jsTrunc_add_intCast (s n : Int) : jsTrunc ((s : ℚ) + (n : ℚ)) = s + n :=
  jsTrunc_eq_of_cast _ _ (by push_cast; ring)

/-- C3 (amended): the fit-in-day check is applied once per task, not in a
loop; every incomplete task, including one whose estimate exceeds the 8-hour
window, receives a committed slot in a single pass.  The nine-hour task is
committed one single day forward at 09:00-18:00. -/
theorem oversized_task_single_advance :
    (∀ (tasks : List Task) (now : Int),
      ((scheduleTasks tasks now).all fun t =>
        (t.completed != 0) || (t.scheduledStart.isSome && t.scheduledEnd.isSome)) = true)
    ∧ scheduleTasks [bigTask] refNow = [bigDone]
    ∧ bigDone.scheduledStart = some 1743930000000
    ∧ bigDone.scheduledEnd = some 1743962400000 := by
  refine ⟨?_, sched_big_eval, rfl, rfl⟩
  intro tasks now
  rw [List.all_eq_true]
  intro a ha
  by_cases hc : a.completed = 0
  · obtain ⟨x, -, -, -, -, hxs, hxe⟩ :=
      scheduleTasks_incomplete_structure tasks now a ha hc
    simp [hxs, hxe]
  · simp only [Bool.or_eq_true, bne_iff_ne]
    left
    exact hc

/-- C3 counterexample: the nine-hour task is not pushed forward indefinitely:
after one single day-advance the engine commits a concrete slot for it
(starting exactly one day after the reference day), so it does receive a
committed slot. -/
theorem oversized_task_committed_cex :
    scheduleTasks [bigTask] refNow = [bigDone]
    ∧ (bigDone.scheduledStart.isSome ∧ bigDone.scheduledEnd.isSome)
    ∧ dayOf 1743930000000 = dayOf refNow + 1 :=
  ⟨sched_big_eval, ⟨rfl, rfl⟩, by decide⟩

/-- C2 counterexample: the nine-hour task is committed with an end whose
time-of-day is 18:00, beyond the 17:00 window close, violating working-hours
containment as stated (the claim allowed any estimate at least 0.25). -/
theorem containment_violated_cex :
    scheduleTasks [bigTask] refNow = [bigDone]
    ∧ bigDone.completed = 0
    ∧ bigDone.scheduledEnd = some 1743962400000
    ∧ ¬ (todOf 1743962400000 ≤ 17 * msPerHour) :=
  ⟨sched_big_eval, rfl, rfl, by decide⟩

/-- C1 counterexample: with a pre-epoch reference time the sentinel test
latestScheduledEndTime > new Date(0) never fires, so two distinct incomplete
tasks receive the identical slot 12:00-13:00 of 1969-12-22, which overlaps. -/
theorem no_overlap_violated_cex :
    scheduleTasks [preTaskA, preTaskB] negNow = [preDoneA, preDoneB]
    ∧ preDoneA.id ≠ preDoneB.id
    ∧ preDoneA.completed = 0 ∧ preDoneB.completed = 0
    ∧ preDoneA.scheduledStart = some (-820800000)
    ∧ preDoneA.scheduledEnd = some (-817200000)
    ∧ preDoneB.scheduledStart = some (-820800000)
    ∧ preDoneB.scheduledEnd = some (-817200000)
    ∧ ¬ ((-817200000 : Int) ≤ -820800000 ∨ (-817200000 : Int) ≤ -820800000) :=
  ⟨sched_pre_eval, by decide, rfl, rfl, rfl, rfl, rfl, rfl, by decide⟩

/-- C5: the comparator of the engine sort is exactly due date ascending with
ties broken by priority descending (high=3, medium=2, low=1); the engine
processes tasks in that sorted order (sortTasks is a sorted permutation); and
in the tie scenario the high-priority task is committed at 09:00-10:00 while
the low-priority one, although listed first in storage, is pushed to
10:00-11:00. -/
theorem commitment_order_rule :
    (∀ a b : Task, taskLE a b ↔
      (a.dueDate < b.dueDate ∨
        (a.dueDate = b.dueDate ∧ priorityMap b.priority ≤ priorityMap a.priority)))
    ∧ (∀ l : List Task, List.Sorted taskLE (sortTasks l) ∧ (sortTasks l).Perm l)
    ∧ scheduleTasks [lowTask, highTask] now8 = [lowDone, highDone]
    ∧ highDone.scheduledStart = some 1743843600000
    ∧ highDone.scheduledEnd = some 1743847200000
    ∧ lowDone.scheduledStart = some 1743847200000
    ∧ lowDone.scheduledEnd = some 1743850800000 :=
  ⟨taskLE_iff, fun l => ⟨sortTasks_sorted l, sortTasks_perm l⟩, sched_two_eval,
    rfl, rfl, rfl, rfl⟩

/-- C6: the code's hour test for honouring the due time is exactly the
inclusive-start exclusive-end time-of-day window test; a 1-hour task due at
10:00 with now 08:00 is scheduled 10:00-11:00, and a task due at 20:00 with
now 08:00 starts at the 09:00 window open. -/
theorem candidate_start_rule :
    (∀ t : Int, (9 ≤ hoursOf t ∧ hoursOf t < 17) ↔
      (9 * msPerHour ≤ todOf t ∧ todOf t < 17 * msPerHour))
    ∧ scheduleTasks [sc1Task] now8 = [sc1Done]
    ∧ sc1Done.scheduledStart = some 1743847200000
    ∧ sc1Done.scheduledEnd = some 1743850800000
    ∧ scheduleTasks [sc2Task] now8 = [sc2Done]
    ∧ sc2Done.scheduledStart = some 1743843600000
    ∧ sc2Done.scheduledEnd = some 1743847200000 :=
  ⟨fun t => and_congr (nine_le_hoursOf_iff t) (hoursOf_lt17_iff t),
    sched_sc1_eval, rfl, rfl, sched_sc2_eval, rfl, rfl⟩

/-- C7 (amended): over a stored set with unique ids, whenever an incomplete
task's estimate converts to a whole number of milliseconds the committed slot
length is exactly estimatedHours times 3,600,000; in general the Date
constructor truncates the sum to whole milliseconds. -/
theorem duration_exact_when_integral (tasks : List Task) (now : Int)
    (hids : (tasks.map Task.id).Nodup)
    (hest : ∀ t ∈ tasks, t.completed = 0 →
      ∃ n : Int, t.estimatedHours * 3600000 = (n : ℚ))
    (a : Task) (ha : a ∈ scheduleTasks tasks now) (hca : a.completed = 0)
    (s e : Int) (hs : a.scheduledStart = some s) (he : a.scheduledEnd = some e) :
    ((e - s : Int) : ℚ) = a.estimatedHours * 3600000 := by
  have hmap := ha
  simp only [scheduleTasks, List.mem_map] at hmap
  obtain ⟨t, htm, hwb⟩ := hmap
  have hframe := applySlot_frame
    (commitTasks now (sortTasks (tasks.filter (fun u => u.completed == 0))) 0) t
  rw [hwb] at hframe
  obtain ⟨x, hxm, hxid, hxtasks, hxc, hxs, hxe⟩ :=
    scheduleTasks_incomplete_structure tasks now a ha hca
  have hxt : x.1 = t := by
    refine List.inj_on_of_nodup_map hids hxtasks htm ?_
    rw [hxid, ← hframe.1]
  obtain ⟨n, hn⟩ := hest x.1 hxtasks hxc
  have hshape := commitTasks_end_shape now
    (sortTasks (tasks.filter (fun u => u.completed == 0))) 0 x hxm
  rw [hn, jsTrunc_add_intCast] at hshape
  have hes : s = x.2.1 := by rw [hs] at hxs; exact Option.some.inj hxs
  have hee : e = x.2.2 := by rw [he] at hxe; exact Option.some.inj hxe
  have hesteq : a.estimatedHours = x.1.estimatedHours := by
    rw [hxt, ← hframe.2.2.2.1]
  rw [hesteq, hes, hee, hshape, hn]
  push_cast
  ring

/-- C7 counterexample: an estimate of 0.2500001 hours converts to 900000.36
milliseconds, and the committed slot is 900000 milliseconds long: the Date
constructor truncates, so the duration is not exactly estimatedHours times
3,600,000. -/
theorem duration_truncated_cex :
    scheduleTasks [oddTask] refNow = [oddDone]
    ∧ oddDone.completed = 0
    ∧ oddDone.scheduledStart = some 1743854400000
    ∧ oddDone.scheduledEnd = some 1743855300000
    ∧ ¬ (((1743855300000 - 1743854400000 : Int) : ℚ)
        = oddDone.estimatedHours * 3600000) := by
  refine ⟨sched_odd_eval, rfl, rfl, rfl, ?_⟩
  show ¬ (((1743855300000 - 1743854400000 : Int) : ℚ) = oddTask.estimatedHours * 3600000)
  norm_num [oddTask, oddEst_eq]

/-- C8: a reschedule pass returns the same number of tasks, never touches a
completed task (the whole record is returned unchanged), and for every task
changes at most scheduledStart and scheduledEnd: all other fields are
preserved position by position. -/
theorem reschedule_frame (tasks : List Task) (now : Int) (i : ℕ) :
    (scheduleTasks tasks now).length = tasks.length ∧
    ∀ t u, tasks[i]? = some t → (scheduleTasks tasks now)[i]? = some u →
      ((t.completed ≠ 0 → u = t) ∧ u.id = t.id ∧ u.title = t.title ∧
        u.description = t.description ∧ u.estimatedHours = t.estimatedHours ∧
        u.priority = t.priority ∧ u.dueDate = t.dueDate ∧ u.completed = t.completed ∧
        u.createdAt = t.createdAt) := by
  constructor
  · simp [scheduleTasks]
  · intro t u ht hu
    set slots := commitTasks now (sortTasks (tasks.filter (fun v => v.completed == 0))) 0
      with hslots
    have hmap : (scheduleTasks tasks now)[i]? = (tasks[i]?).map (applySlot slots) := by
      simp [scheduleTasks, hslots]
    rw [ht, hu] at hmap
    have hu2 : u = applySlot slots t := Option.some.inj hmap
    have hframe := applySlot_frame slots t
    rw [← hu2] at hframe
    refine ⟨?_, hframe⟩
    intro hc
    rw [hu2, applySlot_completed slots t hc]

/-! Association-list lemmas for the storage map. -/

lemma mapGet_replace_eq (k : Int) (v : Task) :
    ∀ m : List (Int × Task), (m.find? (fun p => p.1 == k)).isSome = true →
      mapGet (m.map (fun p => if p.1 == k then (k, v) else p)) k = some v := by
  intro m
  induction m with
  | nil => intro h; simp at h
  | cons q ms ih =>
    intro h
    by_cases hq : (q.1 == k) = true
    · have hhead : (if (q.1 == k) = true then (k, v) else q) = (k, v) := if_pos hq
      rw [List.map_cons]
      rw [hhead, mapGet, List.find?_cons]
      simp
    · have hq' : (q.1 == k) = false := by simpa using hq
      simp only [List.find?_cons] at h
      rw [hq'] at h
      have hih := ih (by simpa using h)
      have hhead : (if (q.1 == k) = true then (k, v) else q) = q := if_neg (by simp [hq'])
      rw [List.map_cons]
      rw [hhead, mapGet, List.find?_cons, hq']
      exact hih

lemma mapGet_append_eq (k : Int) (v : Task) :
    ∀ m : List (Int × Task), m.find? (fun p => p.1 == k) = none →
      mapGet (m ++ [(k, v)]) k = some v := by
  intro m
  induction m with
  | nil => intro _; simp [mapGet]
  | cons q ms ih =>
    intro h
    simp only [List.find?_cons] at h
    by_cases hq : (q.1 == k) = true
    · rw [hq] at h
      cases h
    · have hq' : (q.1 == k) = false := by simpa using hq
      rw [hq'] at h
      have hih := ih h
      rw [List.cons_append, mapGet, List.find?_cons]
      rw [hq']
      exact hih

/-- Map.set stores the value under the key. -/
lemma mapGet_mapSet_self (m : List (Int × Task)) (k : Int) (v : Task) :
    mapGet (mapSet m k v) k = some v := by
  rw [mapSet]
  split
  · exact mapGet_replace_eq k v m (by assumption)
  · rename_i h
    cases hf : m.find? (fun p => p.1 == k) with
    | none => exact mapGet_append_eq k v m hf
    | some x => rw [hf] at h; simp at h

/-- A key is present exactly when it occurs among the stored keys. -/
lemma mapGet_isSome_iff (j : Int) :
    ∀ m : List (Int × Task),
      ((mapGet m j).isSome = true ↔ j ∈ m.map (fun p => p.1)) := by
  intro m
  induction m with
  | nil => simp [mapGet]
  | cons q ms ih =>
    by_cases hq : (q.1 == j) = true
    · have hqj : q.1 = j := by simpa using hq
      simp [mapGet, List.find?_cons, hq, hqj]
    · have hq' : (q.1 == j) = false := by simpa using hq
      have hqne : ¬ q.1 = j := by simpa using hq
      have hqj : ¬ j = q.1 := fun hh => hqne hh.symm
      have hstep : mapGet (q :: ms) j = mapGet ms j := by
        rw [mapGet, List.find?_cons, hq']
        rfl
      rw [hstep, List.map_cons, List.mem_cons, ih]
      constructor
      · exact fun hmem => Or.inr hmem
      · rintro (hj | hmem)
        · exact absurd hj hqj
        · exact hmem

/-- Map.set leaves the stored keys unchanged or appends the new key. -/
lemma keys_mapSet (m : List (Int × Task)) (k : Int) (v : Task) :
    (mapSet m k v).map (fun p => p.1) = m.map (fun p => p.1) ∨
      (mapSet m k v).map (fun p => p.1) = m.map (fun p => p.1) ++ [k] := by
  rw [mapSet]
  split
  · left
    rw [List.map_map]
    apply List.map_congr_left
    intro q _
    by_cases hq : q.1 = k
    · simp [Function.comp, hq]
    · simp [Function.comp, hq]
  · right
    simp

/-- Map.set preserves presence of every key. -/
lemma mapGet_isSome_mapSet (m : List (Int × Task)) (k : Int) (v : Task) (j : Int)
    (h : (mapGet m j).isSome = true) : (mapGet (mapSet m k v) j).isSome = true := by
  rw [mapGet_isSome_iff] at h ⊢
  rcases keys_mapSet m k v with hk | hk
  · rw [hk]; exact h
  · rw [hk]; exact List.mem_append_left _ h

/-- Map.set preserves the key-equals-record-id invariant when the stored
record's id is the key. -/
lemma storeInv_mapSet (m : List (Int × Task)) (k : Int) (v : Task)
    (hinv : storeInv m = true) (hv : v.id = k) : storeInv (mapSet m k v) = true := by
  rw [storeInv, List.all_eq_true]
  rw [storeInv, List.all_eq_true] at hinv
  intro p hp
  rw [mapSet] at hp
  split at hp
  · obtain ⟨q, hqm, hqe⟩ := List.mem_map.mp hp
    by_cases hq : (q.1 == k) = true
    · rw [if_pos hq] at hqe
      rw [← hqe]
      simp [hv]
    · have hq' : (q.1 == k) = false := by simpa using hq
      rw [if_neg (by simp [hq'])] at hqe
      rw [← hqe]
      exact hinv q hqm
  · rcases List.mem_append.mp hp with hp1 | hp1
    · exact hinv p hp1
    · rcases List.mem_cons.mp hp1 with hp2 | hp2
      · rw [hp2]
        simp [hv]
      · cases hp2

/-- The reschedule write-backs preserve the storage invariant. -/
lemma storeInv_foldl (slots : List (Task × Int × Int)) :
    ∀ acc : List (Int × Task), storeInv acc = true →
      storeInv (slots.foldl
        (fun a x =>
          mapSet a x.1.id { x.1 with scheduledStart := some x.2.1, scheduledEnd := some x.2.2 })
        acc) = true := by
  induction slots with
  | nil => intro acc h; exact h
  | cons x xs ih =>
    intro acc h
    exact ih _ (storeInv_mapSet acc x.1.id _ h rfl)

lemma storeInv_scheduleStore (m : List (Int × Task)) (now : Int)
    (h : storeInv m = true) : storeInv (scheduleStore m now) = true := by
  rw [scheduleStore]
  exact storeInv_foldl _ m h

/-- The reschedule write-backs never remove a key. -/
lemma isSome_foldl (slots : List (Task × Int × Int)) :
    ∀ (acc : List (Int × Task)) (j : Int), (mapGet acc j).isSome = true →
      (mapGet (slots.foldl
        (fun a x =>
          mapSet a x.1.id { x.1 with scheduledStart := some x.2.1, scheduledEnd := some x.2.2 })
        acc) j).isSome = true := by
  induction slots with
  | nil => intro acc j h; exact h
  | cons x xs ih =>
    intro acc j h
    exact ih _ j (mapGet_isSome_mapSet acc x.1.id _ j h)

lemma isSome_scheduleStore (m : List (Int × Task)) (now j : Int)
    (h : (mapGet m j).isSome = true) : (mapGet (scheduleStore m now) j).isSome = true := by
  rw [scheduleStore]
  exact isSome_foldl _ m j h

/-- Under the storage invariant, the record found under a key carries that
key as its id. -/
lemma mapGet_id_of_inv (m : List (Int × Task)) (k : Int) (r : Task)
    (hinv : storeInv m = true) (h : mapGet m k = some r) : r.id = k := by
  rw [mapGet] at h
  obtain ⟨pr, hfind, hsnd⟩ := Option.map_eq_some'.mp h
  have h1 : pr.1 = k := by simpa using List.find?_some hfind
  have h2 : pr ∈ m := List.mem_of_find?_eq_some hfind
  rw [storeInv, List.all_eq_true] at hinv
  have h3 : pr.1 = pr.2.id := by simpa using hinv pr h2
  rw [← hsnd, ← h3, h1]

/-- C9: updating or deleting an absent id fails (undefined / false) and
leaves the entire store unchanged; no reschedule pass runs. -/
theorem notfound_leaves_store (st : MemStorage) (id : Int) (p : TaskPatch)
    (h : mapGet st.tasks id = none) :
    updateTask st id p = (none, st) ∧ deleteTask st id = (st, false) := by
  have hfind : st.tasks.find? (fun q => q.1 == id) = none := by
    rw [mapGet] at h
    exact Option.map_eq_none'.mp h
  constructor
  · simp only [updateTask, h]
  · simp only [deleteTask, hfind, Option.isSome_none]
    rfl

/-- C10 (amended): as long as the patch does not itself contain an id field,
updating an existing task leaves the id stored under the key unchanged: with
the invariant that every key equals its record's id (established at
creation), the record found under the key after the update still has that id,
whether or not a reschedule pass runs. -/
theorem update_preserves_id (st : MemStorage) (id : Int) (p : TaskPatch)
    (hinv : storeInv st.tasks = true) (hp : p.id = none)
    (hsome : (mapGet st.tasks id).isSome = true) :
    (mapGet ((updateTask st id p).2).tasks id).map Task.id = some id := by
  obtain ⟨t, ht⟩ := Option.isSome_iff_exists.mp hsome
  have htid : t.id = id := mapGet_id_of_inv st.tasks id t hinv ht
  have hmid : (applyPatch t p).id = id := by
    simp only [applyPatch, hp, Option.getD_none]
    exact htid
  have h1 : mapGet (mapSet st.tasks id (applyPatch t p)) id = some (applyPatch t p) :=
    mapGet_mapSet_self st.tasks id (applyPatch t p)
  have hinv1 : storeInv (mapSet st.tasks id (applyPatch t p)) = true :=
    storeInv_mapSet st.tasks id (applyPatch t p) hinv hmid
  simp only [updateTask, ht]
  split
  · have hinv2 := storeInv_scheduleStore _ refNow hinv1
    have hsome2 := isSome_scheduleStore _ refNow id (by rw [h1]; rfl)
    obtain ⟨r, hr⟩ := Option.isSome_iff_exists.mp hsome2
    rw [hr, Option.map_some']
    rw [mapGet_id_of_inv _ _ _ hinv2 hr]
  · rw [h1, Option.map_some', hmid]

/-- C10 counterexample: a patch containing an id field rewrites the stored
record's id: after update(1, patch with id 2) the record stored under key 1
carries id 2, not its creation id 1. -/
theorem id_overwritten_cex :
    (mapGet ((updateTask oneStore 1 idPatch).2).tasks 1).map Task.id = some 2
    ∧ (2 : Int) ≠ 1 :=
  ⟨by decide, by decide⟩

/-- Witness for the no-overlap theorem at the scenario-3 pair: the
high-priority slot ends exactly when the low-priority slot starts. -/
theorem no_overlap_witness :
    (0 : Int) ≤ now8 ∧
      ((1743847200000 : Int) ≤ 1743847200000 ∨ (1743850800000 : Int) ≤ 1743843600000) :=
  ⟨by decide,
    no_overlap_after_reschedule [lowTask, highTask] now8 (by decide)
      (by intro t ht hc; fin_cases ht <;> norm_num [lowTask, highTask])
      highDone lowDone
      (by rw [sched_two_eval]; exact List.mem_cons_of_mem _ (List.mem_cons_self _ _))
      (by rw [sched_two_eval]; exact List.mem_cons_self _ _)
      rfl rfl (by decide)
      1743843600000 1743847200000 1743847200000 1743850800000 rfl rfl rfl rfl⟩

/-- Witness for working-hours containment at the committed high-priority
slot 09:00-10:00. -/
theorem working_hours_witness :
    9 * msPerHour ≤ todOf 1743843600000 ∧ todOf 1743843600000 < 17 * msPerHour ∧
      todOf 1743847200000 ≤ 17 * msPerHour ∧ dayOf 1743843600000 = dayOf 1743847200000 :=
  (working_hours_containment [lowTask, highTask] now8
    (by intro t ht hc; fin_cases ht <;> norm_num [lowTask, highTask])
    highDone
    (by rw [sched_two_eval]; exact List.mem_cons_of_mem _ (List.mem_cons_self _ _))
    rfl).2.2 1743843600000 1743847200000 rfl rfl

/-- Witness for exact duration at the one-hour high-priority task. -/
theorem duration_exact_witness :
    ((1743847200000 - 1743843600000 : Int) : ℚ) = highDone.estimatedHours * 3600000 :=
  duration_exact_when_integral [lowTask, highTask] now8 (by decide)
    (by intro t ht hc; fin_cases ht <;> exact ⟨3600000, by norm_num [lowTask, highTask]⟩)
    highDone
    (by rw [sched_two_eval]; exact List.mem_cons_of_mem _ (List.mem_cons_self _ _))
    rfl 1743843600000 1743847200000 rfl rfl

/-- Witness for the frame property: at position 0 of a pass over the stored
pair, the low-priority task keeps all its fields except the slot, and a pass
over a lone completed task returns it identically. -/
theorem reschedule_frame_witness :
    ((lowTask.completed ≠ 0 → lowDone = lowTask) ∧ lowDone.id = lowTask.id ∧
      lowDone.title = lowTask.title ∧ lowDone.description = lowTask.description ∧
      lowDone.estimatedHours = lowTask.estimatedHours ∧ lowDone.priority = lowTask.priority ∧
      lowDone.dueDate = lowTask.dueDate ∧ lowDone.completed = lowTask.completed ∧
      lowDone.createdAt = lowTask.createdAt)
    ∧ ((doneTask.completed ≠ 0 → doneTask = doneTask) ∧ doneTask.id = doneTask.id ∧
      doneTask.title = doneTask.title ∧ doneTask.description = doneTask.description ∧
      doneTask.estimatedHours = doneTask.estimatedHours ∧
      doneTask.priority = doneTask.priority ∧ doneTask.dueDate = doneTask.dueDate ∧
      doneTask.completed = doneTask.completed ∧ doneTask.createdAt = doneTask.createdAt) :=
  ⟨(reschedule_frame [lowTask, highTask] now8 0).2 lowTask lowDone rfl
      (by rw [sched_two_eval]; rfl),
    (reschedule_frame [doneTask] now8 0).2 doneTask doneTask rfl
      (by rw [sched_done_eval]; rfl)⟩

/-- Witness for the NotFound behaviour on the empty store. -/
theorem notfound_witness :
    updateTask emptyStore 1 titlePatch = (none, emptyStore) ∧
      deleteTask emptyStore 1 = (emptyStore, false) :=
  notfound_leaves_store emptyStore 1 titlePatch rfl

/-- Witness for id immutability under an id-free patch: renaming the stored
task leaves id 1 under key 1. -/
theorem update_preserves_id_witness :
    (mapGet ((updateTask oneStore 1 titlePatch).2).tasks 1).map Task.id = some 1 :=
  update_preserves_id oneStore 1 titlePatch (by decide) rfl (by decide)

end TaskManager
